import Mathlib

/-!
Verification development for the `wikipedia_core` crate.

Strings from the Rust side are modelled as `List Char` (Rust `String`s are
sequences of Unicode scalar values, exactly Lean `Char`s); Rust byte lengths
(`str::len`) are modelled by `utf8Len`, the sum of the UTF-8 widths of the
characters.  Machine integers (`u64` ids, the `DefaultHasher` state) are
modelled as `Nat` with explicit reduction modulo `2 ^ 64`.  The on-disk
article directory written by the generator is modelled as an association
list from encoded filename to the `text` payload of the stored JSON
document (the `ToolResponse` wrapper round-trips that payload verbatim, and
the constant `tools/get_article/` prefix and `.json` suffix of the path are
common to every key, so only the encoded stem is kept).
-/

/-- Some character constants, by code point, for characters whose literal
form is awkward in this file: the braces, the apostrophe and the bullet. -/
def braceO : Char := Char.ofNat 123

/-- Closing brace character. -/
def braceC : Char := Char.ofNat 125

/-- Apostrophe character. -/
def aposC : Char := Char.ofNat 39

/-- Bullet character (U+2022), used by the disambiguation entries. -/
def bulletC : Char := Char.ofNat 8226

/-- UTF-8 width in bytes of one Unicode scalar value. -/
def utf8Width (c : Char) : Nat :=
  if c.toNat < 0x80 then 1
  else if c.toNat < 0x800 then 2
  else if c.toNat < 0x10000 then 3
  else 4

/-- Byte length of a Rust string (`str::len`): sum of UTF-8 widths. -/
def utf8Len (s : List Char) : Nat :=
  (s.map utf8Width).sum

/-- UTF-8 encoding of one scalar value as a byte list. -/
def utf8Bytes (c : Char) : List Nat :=
  let n := c.toNat
  if n < 0x80 then [n]
  else if n < 0x800 then
    [0xC0 + n / 64, 0x80 + n % 64]
  else if n < 0x10000 then
    [0xE0 + n / 4096, 0x80 + n / 64 % 64, 0x80 + n % 64]
  else
    [0xF0 + n / 262144, 0x80 + n / 4096 % 64, 0x80 + n / 64 % 64, 0x80 + n % 64]

/-- UTF-8 encoding of a string as a byte list (`str::as_bytes`). -/
def utf8Encode (s : List Char) : List Nat :=
  s.flatMap utf8Bytes

/-- `char::to_lowercase`, modelled on the ASCII range (where it maps
`A`..`Z` to `a`..`z` and is the identity elsewhere); characters outside
ASCII are kept unchanged.  Every non-ASCII character is folded to `_` by
`make_filename_safe` afterwards, so this restriction does not affect the
encoder's output alphabet, and every concrete title appearing in the
theorems below is ASCII. -/
def charLower (c : Char) : Char :=
  if 65 ≤ c.toNat ∧ c.toNat ≤ 90 then Char.ofNat (c.toNat + 32) else c

/-- `str::to_lowercase`, character by character. -/
def strLower (s : List Char) : List Char :=
  s.map charLower

/-! ## `src/filename_encoding.rs` -/

/-- `MAX_FILENAME_LENGTH` from `filename_encoding.rs`. -/
def MAX_FILENAME_LENGTH : Nat := 200

/-- `is_combining_mark` from `filename_encoding.rs`: the five combining
ranges matched there. -/
def is_combining_mark (c : Char) : Bool :=
  (0x300 ≤ c.toNat ∧ c.toNat ≤ 0x36F) ∨
  (0x1AB0 ≤ c.toNat ∧ c.toNat ≤ 0x1AFF) ∨
  (0x1DC0 ≤ c.toNat ∧ c.toNat ≤ 0x1DFF) ∨
  (0x20D0 ≤ c.toNat ∧ c.toNat ≤ 0x20FF) ∨
  (0xFE20 ≤ c.toNat ∧ c.toNat ≤ 0xFE2F)

/-- Canonical decomposition (NFD) of one scalar value, as used by
`normalize_unicode` via the `unicode_normalization` crate.  It is modelled
on the Basic Latin range, where it is the identity, together with a table
for the common precomposed Latin letters; other characters are kept as
they are.  Every character this model leaves untouched that real NFD would
decompose is non-ASCII, and both it and its decomposition are folded to
`_` by `make_filename_safe`, so the encoder theorems are insensitive to
the difference. -/
def charNfd (c : Char) : List Char :=
  if c = 'á' then ['a', Char.ofNat 0x301]
  else if c = 'é' then ['e', Char.ofNat 0x301]
  else if c = 'í' then ['i', Char.ofNat 0x301]
  else if c = 'ó' then ['o', Char.ofNat 0x301]
  else if c = 'ú' then ['u', Char.ofNat 0x301]
  else if c = 'ö' then ['o', Char.ofNat 0x308]
  else if c = 'ç' then ['c', Char.ofNat 0x327]
  else [c]

/-- `normalize_unicode` from `filename_encoding.rs`: NFD followed by
dropping the combining marks. -/
def normalize_unicode (s : List Char) : List Char :=
  (s.flatMap charNfd).filter (fun c => !is_combining_mark c)

/-- The character mapping inside `make_filename_safe`: ASCII lowercase
letters, digits, hyphen and underscore are kept, the space becomes an
underscore, and so does everything else. -/
def safeChar (c : Char) : Char :=
  if (97 ≤ c.toNat ∧ c.toNat ≤ 122) ∨ (48 ≤ c.toNat ∧ c.toNat ≤ 57) ∨
      c = '-' ∨ c = '_' then c
  else if c = ' ' then '_'
  else '_'

/-- `make_filename_safe` from `filename_encoding.rs`. -/
def make_filename_safe (s : List Char) : List Char :=
  (strLower s).map safeChar

/-! ### `DefaultHasher`

`create_short_filename` hashes the original title with
`std::collections::hash_map::DefaultHasher`, which is SipHash-1-3 with
both keys zero; `Hash for str` feeds the UTF-8 bytes of the string
followed by a single `0xFF` byte.  The implementation below is a direct
transcription of that algorithm over `Nat` reduced modulo `2 ^ 64`. -/

/-- Reduce modulo `2 ^ 64`. -/
def w64 (n : Nat) : Nat := n % (2 ^ 64)

/-- 64-bit addition. -/
def wadd (a b : Nat) : Nat := (a + b) % (2 ^ 64)

/-- 64-bit rotate left. -/
def wrotl (x r : Nat) : Nat :=
  ((x <<< r) % (2 ^ 64)) ||| (x >>> (64 - r))

/-- One SipHash round on the four state words. -/
def sipRound : Nat × Nat × Nat × Nat → Nat × Nat × Nat × Nat :=
  fun s =>
    let v0 := wadd s.1 s.2.1
    let v1 := wrotl s.2.1 13
    let v1 := v1 ^^^ v0
    let v0 := wrotl v0 32
    let v2 := wadd s.2.2.1 s.2.2.2
    let v3 := wrotl s.2.2.2 16
    let v3 := v3 ^^^ v2
    let v0 := wadd v0 v3
    let v3 := wrotl v3 21
    let v3 := v3 ^^^ v0
    let v2 := wadd v2 v1
    let v1 := wrotl v1 17
    let v1 := v1 ^^^ v2
    let v2 := wrotl v2 32
    (v0, v1, v2, v3)

/-- Little-endian word from at most eight bytes. -/
def leWord : List Nat → Nat
  | [] => 0
  | b :: bs => b + 256 * leWord bs

/-- Compression loop of SipHash-1-3: one round per 8-byte block, then the
final block carrying the low byte of the total length in its top byte,
one round, and three finalization rounds. -/
def sipLoop (totalLen : Nat) : Nat × Nat × Nat × Nat → List Nat → Nat
  | s, b0 :: b1 :: b2 :: b3 :: b4 :: b5 :: b6 :: b7 :: rest =>
    let m := leWord [b0, b1, b2, b3, b4, b5, b6, b7]
    let s := (s.1, s.2.1, s.2.2.1, s.2.2.2 ^^^ m)
    let s := sipRound s
    let s := (s.1 ^^^ m, s.2.1, s.2.2.1, s.2.2.2)
    sipLoop totalLen s rest
  | s, tail =>
    let b := ((totalLen % 256) <<< 56) ||| leWord tail
    let s := (s.1, s.2.1, s.2.2.1, s.2.2.2 ^^^ b)
    let s := sipRound s
    let s := (s.1 ^^^ b, s.2.1, s.2.2.1 ^^^ 0xFF, s.2.2.2)
    let s := sipRound (sipRound (sipRound s))
    s.1 ^^^ s.2.1 ^^^ s.2.2.1 ^^^ s.2.2.2

/-- SipHash-1-3 with both keys zero over a byte list. -/
def sipHash13 (bytes : List Nat) : Nat :=
  sipLoop bytes.length
    (0x736f6d6570736575, 0x646f72616e646f6d, 0x6c7967656e657261, 0x7465646279746573)
    bytes

/-- `DefaultHasher` applied to a Rust string: hash the UTF-8 bytes
followed by the `0xFF` terminator written by `Hash for str`. -/
def defaultHashStr (s : List Char) : Nat :=
  sipHash13 (utf8Encode s ++ [0xFF])

/-- One lowercase hexadecimal digit. -/
def hexDigitChar (n : Nat) : Char :=
  if n < 10 then Char.ofNat (48 + n) else Char.ofNat (87 + n)

/-- The sixteen lowercase hexadecimal digits of a 64-bit value, most
significant first, zero-padded: the rendering of `{:016x}`. -/
def toHex16 (h : Nat) : List Char :=
  (List.range 16).map (fun i => hexDigitChar (h >>> ((15 - i) * 4) % 16))

/-- `create_short_filename` from `filename_encoding.rs`: truncate the
safe-mapped string to `MAX_FILENAME_LENGTH - 17` bytes (the string is
ASCII, so byte and character positions coincide) and append `_` and the
sixteen hex digits of the hash of the original title. -/
def create_short_filename (original encoded : List Char) : List Char :=
  encoded.take (MAX_FILENAME_LENGTH - 17) ++ '_' :: toHex16 (defaultHashStr original)

/-- `encode_staticmcp_filename` from `filename_encoding.rs`. -/
def encode_staticmcp_filename (name : List Char) : List Char :=
  let safe_chars := make_filename_safe (normalize_unicode name)
  if utf8Len safe_chars ≤ MAX_FILENAME_LENGTH then safe_chars
  else create_short_filename name safe_chars

example : encode_staticmcp_filename "Hello World".toList = "hello_world".toList := by decide
example : encode_staticmcp_filename "Test-123".toList = "test-123".toList := by decide
example : encode_staticmcp_filename "Test/Article".toList = "test_article".toList := by decide

/-! ## `clean_wikitext` (`src/parser.rs`)

`clean_wikitext` applies eleven `Regex::replace_all` rewrites in order and
then trims, filters and rejoins the lines.  Each of the eleven patterns is
a sequence of literals, character-class stars (greedy or lazy) and the
bounded repetition of a class, with at most one capture group, so the
patterns are embedded as token lists and matched by a backtracking matcher
with the leftmost-first priority the `regex` crate implements. -/

/-- One token of a pattern: a literal, a class star (with greedy flag), or
a greedy bounded class repetition. -/
inductive RTok where
  | lit : List Char → RTok
  | star : (Char → Bool) → Bool → RTok
  | rep : Nat → Nat → (Char → Bool) → RTok

/-- A pattern: its tokens and the index of the capture token, if any. -/
structure RPat where
  toks : List RTok
  cap : Option Nat

/-- Length of the maximal prefix of `s` inside the class `cl`. -/
def runLen (cl : Char → Bool) : List Char → Nat
  | [] => 0
  | c :: rest => if cl c then runLen cl rest + 1 else 0

/-- Match a token list against a prefix of `s`, returning the consumed
segment of each token.  Greedy quantifiers try the longest extent first,
lazy ones the shortest, matching the priority order of the `regex` crate. -/
def matchToks : List RTok → List Char → Option (List (List Char))
  | [], _ => some []
  | .lit l :: rest, s =>
    if l.isPrefixOf s then (matchToks rest (s.drop l.length)).map (fun segs => l :: segs)
    else none
  | .star cl greedy :: rest, s =>
    let r := runLen cl s
    let ks := if greedy then (List.range (r + 1)).reverse else List.range (r + 1)
    ks.findSome? (fun k => (matchToks rest (s.drop k)).map (fun segs => s.take k :: segs))
  | .rep lo hi cl :: rest, s =>
    let r := min hi (runLen cl s)
    let ks := ((List.range (r + 1)).reverse).filter (fun k => lo ≤ k)
    ks.findSome? (fun k => (matchToks rest (s.drop k)).map (fun segs => s.take k :: segs))

/-- Match a pattern at the start of `s`: consumed length and the
replacement text (the capture segment, or empty for plain removal). -/
def patMatch (p : RPat) (s : List Char) : Option (Nat × List Char) :=
  (matchToks p.toks s).map (fun segs =>
    ((segs.map List.length).sum,
      match p.cap with
      | some i => ((segs.drop i).headD [])
      | none => []))

/-- `Regex::replace_all`, by fuel over the scan position: at each position
try the pattern; on a match emit the replacement and continue after it,
otherwise copy one character. -/
def replaceAllF (p : RPat) : Nat → List Char → List Char
  | 0, s => s
  | _ + 1, [] => []
  | fuel + 1, c :: rest =>
    match patMatch p (c :: rest) with
    | some (n, repl) =>
      if n = 0 then repl ++ c :: replaceAllF p fuel rest
      else repl ++ replaceAllF p fuel (rest.drop (n - 1))
    | none => c :: replaceAllF p fuel rest

/-- `Regex::replace_all` over a whole string. -/
def replace_all (p : RPat) (s : List Char) : List Char :=
  replaceAllF p s.length s

/-- Pattern 1: balanced template invocations. -/
def patTemplate : RPat :=
  ⟨[.lit [braceO, braceO], .star (fun c => c != braceC) true, .lit [braceC, braceC]], none⟩

/-- Pattern 2: category links. -/
def patCategory : RPat :=
  ⟨[.lit ("[[Category:".toList), .star (fun c => c != ']') true, .lit "]]".toList], none⟩

/-- Pattern 3: file links. -/
def patFile : RPat :=
  ⟨[.lit ("[[File:".toList), .star (fun c => c != ']') true, .lit "]]".toList], none⟩

/-- Pattern 4: piped links, keeping the display text. -/
def patPipedLink : RPat :=
  ⟨[.lit "[[".toList, .star (fun c => c != ']') true, .lit [('|' : Char)],
    .star (fun c => c != ']') true, .lit "]]".toList], some 3⟩

/-- Pattern 5: plain links, keeping the target text. -/
def patPlainLink : RPat :=
  ⟨[.lit "[[".toList, .star (fun c => c != ']') true, .lit "]]".toList], some 1⟩

/-- Pattern 6: bold emphasis (lazy inner class). -/
def patBold : RPat :=
  ⟨[.lit [aposC, aposC, aposC], .star (fun c => c != aposC) false,
    .lit [aposC, aposC, aposC]], some 1⟩

/-- Pattern 7: italic emphasis (lazy inner class). -/
def patItalic : RPat :=
  ⟨[.lit [aposC, aposC], .star (fun c => c != aposC) false, .lit [aposC, aposC]], some 1⟩

/-- Pattern 8: reference blocks, removed with their contents. -/
def patRef : RPat :=
  ⟨[.lit "<ref".toList, .star (fun c => c != '>') true, .lit [('>' : Char)],
    .star (fun c => c != '<') true, .lit "</ref>".toList], none⟩

/-- Pattern 9: no-wiki blocks, removed with their contents. -/
def patNowiki : RPat :=
  ⟨[.lit "<nowiki>".toList, .star (fun c => c != '<') true, .lit "</nowiki>".toList], none⟩

/-- Pattern 10: remaining markup tags. -/
def patTag : RPat :=
  ⟨[.lit [('<' : Char)], .star (fun c => c != '>') true, .lit [('>' : Char)]], none⟩

/-- Pattern 11: heading markers, keeping the heading text (lazy inner
class between two greedy bounded runs of equals signs). -/
def patHeading : RPat :=
  ⟨[.rep 2 6 (fun c => c == '='), .star (fun c => c != '=') false,
    .rep 2 6 (fun c => c == '=')], some 1⟩

/-- The eleven rewrites of `clean_wikitext`, in application order. -/
def wikiPatterns : List RPat :=
  [patTemplate, patCategory, patFile, patPipedLink, patPlainLink,
   patBold, patItalic, patRef, patNowiki, patTag, patHeading]

/-- The Unicode `White_Space` code points recognized by `char::is_whitespace`. -/
def isRustWhitespace (c : Char) : Bool :=
  (9 ≤ c.toNat ∧ c.toNat ≤ 13) ∨ c.toNat = 32 ∨ c.toNat = 0x85 ∨ c.toNat = 0xA0 ∨
  c.toNat = 0x1680 ∨ (0x2000 ≤ c.toNat ∧ c.toNat ≤ 0x200A) ∨ c.toNat = 0x2028 ∨
  c.toNat = 0x2029 ∨ c.toNat = 0x202F ∨ c.toNat = 0x205F ∨ c.toNat = 0x3000

/-- `str::trim`. -/
def trimChars (s : List Char) : List Char :=
  ((s.dropWhile isRustWhitespace).reverse.dropWhile isRustWhitespace).reverse

/-- Split on newline separators (keeping a possibly empty final segment). -/
def splitNl : List Char → List (List Char)
  | [] => [[]]
  | c :: rest =>
    if c = '\n' then [] :: splitNl rest
    else
      match splitNl rest with
      | [] => [[c]]
      | l :: ls => (c :: l) :: ls

/-- Drop one trailing carriage return, as `str::lines` does per line. -/
def stripCr (l : List Char) : List Char :=
  if l.getLast? = some '\r' then l.dropLast else l

/-- `str::lines`: newline-separated segments, without a trailing empty
segment, each with one trailing carriage return removed. -/
def linesOf (s : List Char) : List (List Char) :=
  let segs := splitNl s
  (if segs.getLast? = some [] then segs.dropLast else segs).map stripCr

/-- Rejoin lines with single newline separators (`Vec::join("\n")`). -/
def joinLines : List (List Char) → List Char
  | [] => []
  | [l] => l
  | l :: ls => l ++ '\n' :: joinLines ls

/-- `clean_wikitext` from `src/parser.rs`: the eleven rewrites in order,
then split into lines, trim each, drop the empty ones and rejoin. -/
def clean_wikitext (content : List Char) : List Char :=
  let cleaned := wikiPatterns.foldl (fun acc p => replace_all p acc) content
  joinLines (((linesOf cleaned).map trimChars).filter (fun l => !l.isEmpty))

/-! ## The topic filter (`src/filters.rs`)

Modelled from the spec: `filters.rs` is not among the sources, only its
callers are.  Per the spec a filter carries a keyword set (matched against
titles) and a content-level relevance predicate over title and cleaned
content whose exact scoring is external policy; the description string and
server-name formatter play no role in the claims and are omitted. -/
structure TopicFilter where
  keywords : List (List Char)
  isRelevant : List Char → List Char → Bool

/-- `str::contains` with a string pattern: some suffix of the haystack
starts with the needle. -/
def strContains (haystack needle : List Char) : Bool :=
  haystack.tails.any (fun t => needle.isPrefixOf t)

/-! ## The page assembler (`src/parser.rs`) -/

/-- `Article` from `src/types.rs` (the `id` field is a `u64`). -/
structure Article where
  title : List Char
  content : List Char
  id : Nat
  redirect : Option (List Char)

/-- The excluded namespace prefixes of `should_include_by_title`. -/
def excludedPrefixes : List (List Char) :=
  ["File:".toList, "Category:".toList, "Template:".toList, "User:".toList,
   "Talk:".toList, "Wikipedia:".toList, "Help:".toList, "Portal:".toList,
   "MediaWiki:".toList, "Module:".toList]

/-- `should_include_by_title` from `src/parser.rs`. -/
def should_include_by_title (title : List Char) (topic_filter : Option TopicFilter) : Bool :=
  if title.isEmpty then false
  else if excludedPrefixes.any (fun p => p.isPrefixOf title) then false
  else
    match topic_filter with
    | some filter => filter.keywords.any (fun kw => strContains (strLower title) kw)
    | none => true

/-- `should_include_by_content` from `src/parser.rs`. -/
def should_include_by_content (article : Article) (topic_filter : Option TopicFilter) : Bool :=
  match topic_filter with
  | some filter => filter.isRelevant article.title article.content
  | none => true

/-- `u64::from_str` (`str::parse::<u64>()` as used for the page id):
an optional leading plus sign, then at least one decimal digit, with the
value required to fit in 64 bits. -/
def parseU64 (s : List Char) : Option Nat :=
  let digits := match s with
    | c :: rest => if c = '+' then rest else s
    | [] => s
  if digits.isEmpty then none
  else if digits.all (fun c => 48 ≤ c.toNat ∧ c.toNat ≤ 57) then
    let v := digits.foldl (fun acc c => acc * 10 + (c.toNat - 48)) 0
    if v < 2 ^ 64 then some v else none
  else none

/-- `current_content.parse().unwrap_or(0)`. -/
def parseU64OrZero (s : List Char) : Nat :=
  (parseU64 s).getD 0

/-- A structural event of the XML reader: start tag, text run, end tag.
`Event::Eof` is the end of the event list and the other event kinds are
ignored by the loop, so they are not represented. -/
inductive XmlEvent where
  | startE : List Char → XmlEvent
  | textE : List Char → XmlEvent
  | endE : List Char → XmlEvent

/-- Replacing insertion into an association list, the model of
`HashMap::insert` (only lookup and size are observed, so the bucket order
of the hash map is irrelevant). -/
def insertA {α : Type} (k : List Char) (v : α) : List (List Char × α) → List (List Char × α)
  | [] => [(k, v)]
  | (k0, v0) :: rest => if k0 = k then (k, v) :: rest else (k0, v0) :: insertA k v rest

/-- Association-list lookup, the model of `HashMap::get`. -/
def lookupA {α : Type} (k : List Char) : List (List Char × α) → Option α
  | [] => none
  | (k0, v0) :: rest => if k0 = k then some v0 else lookupA k rest

/-- The mutable state of the `WikipediaParser::parse` loop: the two
stores, the page under assembly, the text accumulation buffer, the
processed-page counter and the suppression flag. -/
structure PState where
  articles : List (List Char × Article)
  redirects : List (List Char × List Char)
  current : Option Article
  content : List Char
  processed : Nat
  skip : Bool

/-- The initial state: empty stores, no page, empty buffer. -/
def initPState : PState :=
  ⟨[], [], none, [], 0, false⟩

/-- One iteration of the `WikipediaParser::parse` event loop, returning
the successor state and whether the loop `break`s (the processed-article
cap was reached).  Transcribed from `src/parser.rs` lines 57-135. -/
def parseStep (tf : Option TopicFilter) (maxArticles : Option Nat) (st : PState)
    (e : XmlEvent) : PState × Bool :=
  match e with
  | .startE tag =>
    if tag = "page".toList then
      ({ st with content := [],
                 current := some ⟨[], [], 0, none⟩, skip := false }, false)
    else ({ st with content := [] }, false)
  | .textE s => ({ st with content := st.content ++ s }, false)
  | .endE tag =>
    match st.current with
    | none => ({ st with content := [] }, false)
    | some a =>
      if tag = "title".toList then
        let a := { a with title := st.content }
        ({ st with current := some a, content := [],
                   skip := if should_include_by_title a.title tf then st.skip else true },
         false)
      else if tag = "id".toList then
        let a := if a.id = 0 then { a with id := parseU64OrZero st.content } else a
        ({ st with current := some a, content := [] }, false)
      else if tag = "text".toList then
        let a := if st.skip then a else { a with content := clean_wikitext st.content }
        ({ st with current := some a, content := [] }, false)
      else if tag = "redirect".toList then
        ({ st with current := some { a with redirect := some st.content }, content := [] }, false)
      else if tag = "page".toList then
        if !st.skip && should_include_by_content a tf then
          let st1 :=
            match a.redirect with
            | some target =>
              { st with redirects := insertA a.title target st.redirects,
                        current := none, processed := st.processed + 1 }
            | none =>
              { st with articles := insertA a.title a st.articles,
                        current := none, processed := st.processed + 1 }
          match maxArticles with
          | some m =>
            if st1.processed ≥ m then (st1, true)
            else ({ st1 with skip := false, content := [] }, false)
          | none => ({ st1 with skip := false, content := [] }, false)
        else ({ st with current := none, skip := false, content := [] }, false)
      else ({ st with content := [] }, false)

/-- The `WikipediaParser::parse` loop over an event list: run the step on
each event until a `break` or the end of the input. -/
def parseRun (tf : Option TopicFilter) (maxArticles : Option Nat) (st : PState) :
    List XmlEvent → PState
  | [] => st
  | e :: rest =>
    match parseStep tf maxArticles st e with
    | (st1, true) => st1
    | (st1, false) => parseRun tf maxArticles st1 rest

/-! ## The collision-resolving artifact writer (`src/generator.rs`) -/

/-- The body given to a fresh artifact: a heading line with the title and
then the content. -/
def freshBody (title content : List Char) : List Char :=
  "# ".toList ++ title ++ "\n\n".toList ++ content

/-- The disambiguation bullet entry for one title. -/
def disambigEntry (title : List Char) : List Char :=
  bulletC :: " **".toList ++ title ++ "** - Use get_article tool with title ".toList ++
    aposC :: title ++ [aposC, '\n']

/-- The opening line of a disambiguation index. -/
def disambigHeader : List Char :=
  "Multiple articles found. Choose the one you need:\n\n".toList

/-- The prefix by which an existing body is recognized as a
disambiguation index. -/
def multiplePrefix : List Char :=
  "Multiple articles found".toList

/-- `extract_title_from_content` from `src/generator.rs`: the first line
of a body starting with a heading marker, otherwise `Unknown`. -/
def extract_title_from_content (content : List Char) : List Char :=
  if "# ".toList.isPrefixOf content then
    (content.takeWhile (fun c => c != '\n')).drop 2
  else "Unknown".toList

/-- `merge_with_existing_content` from `src/generator.rs`: append an
entry to an existing index; concatenate two short bodies around a
divider; otherwise rewrite the body into a two-entry index naming the
recovered existing title and the new one.  Lengths are byte lengths. -/
def merge_with_existing_content (existing_text new_title new_content : List Char) : List Char :=
  if multiplePrefix.isPrefixOf existing_text then
    existing_text ++ disambigEntry new_title
  else if utf8Len existing_text ≤ 1000 && utf8Len new_content ≤ 1000 then
    existing_text ++ "\n\n---\n\n## ".toList ++ new_title ++ "\n\n".toList ++ new_content
  else
    disambigHeader ++ disambigEntry (extract_title_from_content existing_text) ++
      disambigEntry new_title

/-- The article-output namespace: encoded filename stem to stored body. -/
abbrev Store : Type := List (List Char × List Char)

/-- `write_article_with_collision_handling` from `src/generator.rs`,
restricted to its effect on the article-output namespace (the
`article_titles` and `categories` bookkeeping feeds the index builders and
touches no artifact): write a fresh body when the filename is free,
otherwise read the existing body back and store the merge result.  No
other path is written. -/
def write_article_with_collision_handling (store : Store) (title content : List Char) : Store :=
  match lookupA (encode_staticmcp_filename title) store with
  | some existing_text =>
    insertA (encode_staticmcp_filename title)
      (merge_with_existing_content existing_text title content) store
  | none => insertA (encode_staticmcp_filename title) (freshBody title content) store

/-- A sequence of collision-handled writes, in processing order. -/
def applyWrites (store : Store) : List (List Char × List Char) → Store
  | [] => store
  | (t, c) :: rest => applyWrites (write_article_with_collision_handling store t c) rest

/-! ## Derived predicates and concrete inputs used by the theorems -/

/-- The output alphabet of the encoder: ASCII lowercase letters, digits,
hyphen, underscore. -/
def isAllowedChar (c : Char) : Bool :=
  (97 ≤ c.toNat ∧ c.toNat ≤ 122) ∨ (48 ≤ c.toNat ∧ c.toNat ≤ 57) ∨ c = '-' ∨ c = '_'

/-- A lowercase hexadecimal digit. -/
def isLowerHexDigit (c : Char) : Bool :=
  (48 ≤ c.toNat ∧ c.toNat ≤ 57) ∨ (97 ≤ c.toNat ∧ c.toNat ≤ 102)

/-- The safe-mapped form of a title, the value `encode_staticmcp_filename`
branches on. -/
def safeMapped (name : List Char) : List Char :=
  make_filename_safe (normalize_unicode name)

/-- Whether a pattern matches anywhere in the string (at any start
position). -/
def hasMatch (p : RPat) : List Char → Bool
  | [] => (patMatch p []).isSome
  | c :: rest => (patMatch p (c :: rest)).isSome || hasMatch p rest

/-- Two characters equal, or both drawn from space, slash, underscore. -/
def substCharOK (x y : Char) : Bool :=
  x == y || ((x == ' ' || x == '/' || x == '_') && (y == ' ' || y == '/' || y == '_'))

/-- Titles that differ only by substituting space, slash or underscore at
the same positions: the relation of claim C3. -/
def substRelated (a b : List Char) : Bool :=
  a.length == b.length && (a.zip b).all (fun p => substCharOK p.1 p.2)

/-- The event block of one `id` element. -/
def idElemEvents (v : List Char) : List XmlEvent :=
  [.startE "id".toList, .textE v, .endE "id".toList]

/-- The event block of a complete non-redirect page: title, a sequence of
`id` elements, text. -/
def pageEvents (title : List Char) (ids : List (List Char)) (body : List Char) :
    List XmlEvent :=
  [.startE "page".toList, .startE "title".toList, .textE title, .endE "title".toList] ++
    ids.flatMap idElemEvents ++
    [.startE "text".toList, .textE body, .endE "text".toList, .endE "page".toList]

/-- The event block of a complete redirect page. -/
def redirectPageEvents (title rtext body : List Char) : List XmlEvent :=
  [.startE "page".toList, .startE "title".toList, .textE title, .endE "title".toList,
   .startE "redirect".toList, .textE rtext, .endE "redirect".toList,
   .startE "text".toList, .textE body, .endE "text".toList, .endE "page".toList]

/-- The value of the first `id` element that parses to a nonzero number,
or zero when there is none. -/
def firstNonzeroId (ids : List (List Char)) : Nat :=
  ((ids.map parseU64OrZero).find? (fun v => v != 0)).getD 0

/-- A keyword filter for the witnesses: one keyword, content always
relevant. -/
def warFilter : TopicFilter :=
  ⟨["war".toList], fun _ _ => true⟩

/-- A long article body (1001 ASCII bytes, above the 1000-byte merge
threshold). -/
def longX : List Char := List.replicate 1001 'x'

/-- A second long article body. -/
def longY : List Char := List.replicate 1001 'y'

/-- Two long articles whose titles collide on the encoded filename
(`a b` and `a_b` both encode to `a_b`), written in order. -/
def storeC1 : Store :=
  applyWrites [] [("a b".toList, longX), ("a_b".toList, longY)]

/-- The disambiguation index the C1 scenario leaves in the base artifact. -/
def idxC1 : List Char :=
  disambigHeader ++ disambigEntry "a b".toList ++ disambigEntry "a_b".toList

/-- Two short colliding articles followed by a long one: the short pair is
merged into a combined document, the long write escalates it to an index. -/
def storeC2 : Store :=
  applyWrites [] [("a b".toList, "x".toList), ("a/b".toList, "y".toList),
                  ("a_b".toList, List.replicate 1001 'z')]

/-- The index the C2 scenario leaves in the base artifact. -/
def idxC2 : List Char :=
  disambigHeader ++ disambigEntry "a b".toList ++ disambigEntry "a_b".toList

/-- A page whose first `id` element reads `0` and whose second reads `7`. -/
def eventsC6 : List XmlEvent :=
  pageEvents "T".toList ["0".toList, "7".toList] "b".toList

/-- One acceptable page, used against a processed-article cap of zero. -/
def eventsC9 : List XmlEvent :=
  pageEvents "T".toList ["1".toList] "b".toList

/-- The idempotence counterexample input for the wikitext normalizer:
brace, tag, brace, x, brace, brace.  The tag-stripping rewrite creates a
fresh template invocation that only a second pass removes. -/
def inputC7 : List Char :=
  [braceO, '<', 'a', '>', braceO, 'x', braceC, braceC]

/-- Long titles related by a single space/slash substitution whose
safe-mapped forms exceed the 200-character bound. -/
def tLongSpace : List Char := List.replicate 200 'a' ++ [' ']

/-- The slash-variant of `tLongSpace`. -/
def tLongSlash : List Char := List.replicate 200 'a' ++ ['/']

/-! ## Lemmas on the encoder alphabet -/

theorem toNat_ofNat_lt (n : Nat) (h : n < 55296) : (Char.ofNat n).toNat = n := by
  rw [Char.ofNat, dif_pos (Or.inl h)]
  simp [Char.ofNatAux, Char.toNat, UInt32.toNat, BitVec.toNat_ofNatLt]

theorem safeChar_allowed (c : Char) : isAllowedChar (safeChar c) = true := by
  unfold safeChar
  split
  · rename_i h
    simp only [isAllowedChar, decide_eq_true_eq]
    tauto
  · split <;> decide

theorem allowed_width (c : Char) (h : isAllowedChar c = true) : utf8Width c = 1 := by
  simp only [isAllowedChar, decide_eq_true_eq] at h
  have hlt : c.toNat < 0x80 := by
    rcases h with ⟨h1, h2⟩ | ⟨h1, h2⟩ | h | h
    · omega
    · omega
    · subst h; decide
    · subst h; decide
  simp [utf8Width, hlt]

theorem allowed_utf8Len (l : List Char) (h : ∀ c ∈ l, isAllowedChar c = true) :
    utf8Len l = l.length := by
  induction l with
  | nil => rfl
  | cons c t ih =>
    simp only [utf8Len, List.map_cons, List.sum_cons] at *
    rw [allowed_width c (h c (by simp)), ih (fun x hx => h x (by simp [hx]))]
    simp [List.length_cons]
    omega

theorem safeMapped_allowed (s : List Char) : ∀ c ∈ safeMapped s, isAllowedChar c = true := by
  intro c hc
  simp only [safeMapped, make_filename_safe, List.mem_map] at hc
  obtain ⟨x, _, rfl⟩ := hc
  exact safeChar_allowed x

theorem toHex16_hex (h : Nat) : ∀ c ∈ toHex16 h, isLowerHexDigit c = true := by
  intro c hc
  simp only [toHex16, List.mem_map, List.mem_range] at hc
  obtain ⟨i, _, rfl⟩ := hc
  have h16 : h >>> ((15 - i) * 4) % 16 < 16 := Nat.mod_lt _ (by omega)
  unfold hexDigitChar
  simp only [isLowerHexDigit, decide_eq_true_eq]
  split
  · rename_i hlt
    left
    rw [toNat_ofNat_lt _ (by omega)]
    omega
  · rename_i hge
    right
    rw [toNat_ofNat_lt _ (by omega)]
    omega

theorem hex_allowed (c : Char) (h : isLowerHexDigit c = true) : isAllowedChar c = true := by
  simp only [isLowerHexDigit, isAllowedChar, decide_eq_true_eq] at *
  omega

theorem toHex16_length (h : Nat) : (toHex16 h).length = 16 := by
  simp [toHex16]

theorem encode_allowed (name : List Char) :
    ∀ c ∈ encode_staticmcp_filename name, isAllowedChar c = true := by
  intro c hc
  unfold encode_staticmcp_filename at hc
  by_cases hb : utf8Len (make_filename_safe (normalize_unicode name)) ≤ MAX_FILENAME_LENGTH
  · rw [if_pos hb] at hc
    exact safeMapped_allowed name c hc
  · rw [if_neg hb] at hc
    unfold create_short_filename at hc
    rcases List.mem_append.mp hc with hl | hr
    · exact safeMapped_allowed name c (List.take_subset _ _ hl)
    · rcases List.mem_cons.mp hr with rfl | hhex
      · decide
      · exact hex_allowed c (toHex16_hex _ c hhex)

theorem allowed_ascii (c : Char) (h : isAllowedChar c = true) : c.toNat < 128 := by
  simp only [isAllowedChar, decide_eq_true_eq] at h
  rcases h with ⟨h1, h2⟩ | ⟨h1, h2⟩ | h | h
  · omega
  · omega
  · subst h; decide
  · subst h; decide

/-- C10: every character of `encode_staticmcp_filename`'s output — in both
the within-bound branch and the hash-suffixed branch — is an ASCII
lowercase letter, a digit, a hyphen or an underscore; in particular both
the safe-mapped form and the output are pure ASCII, so their byte lengths
equal their character counts and the byte-index truncation inside
`create_short_filename` falls on a character boundary (and therefore
cannot panic). -/
theorem C10_output_alphabet (name : List Char) :
    (∀ c ∈ encode_staticmcp_filename name, isAllowedChar c = true) ∧
    (∀ c ∈ encode_staticmcp_filename name, c.toNat < 128) ∧
    utf8Len (safeMapped name) = (safeMapped name).length ∧
    utf8Len (encode_staticmcp_filename name) = (encode_staticmcp_filename name).length := by
  refine ⟨encode_allowed name, ?_, ?_, ?_⟩
  · intro c hc
    exact allowed_ascii c (encode_allowed name c hc)
  · exact allowed_utf8Len _ (safeMapped_allowed name)
  · exact allowed_utf8Len _ (encode_allowed name)

/-- C4: the encoder is a pure function of the title (determinism is
definitional), its output never exceeds 200 characters, a title whose
safe-mapped form is within 200 bytes encodes to exactly that form, and a
title whose safe-mapped form exceeds the bound encodes to a string ending
in an underscore followed by exactly sixteen lowercase hexadecimal
digits. -/
theorem C4_encoding_shape (name : List Char) :
    (encode_staticmcp_filename name).length ≤ 200 ∧
    (utf8Len (safeMapped name) ≤ 200 → encode_staticmcp_filename name = safeMapped name) ∧
    (200 < utf8Len (safeMapped name) →
      ∃ pre hx, encode_staticmcp_filename name = pre ++ '_' :: hx ∧ hx.length = 16 ∧
        ∀ c ∈ hx, isLowerHexDigit c = true) := by
  have hb : utf8Len (safeMapped name) = (safeMapped name).length :=
    allowed_utf8Len _ (safeMapped_allowed name)
  by_cases hle : utf8Len (safeMapped name) ≤ 200
  · have he : encode_staticmcp_filename name = safeMapped name := by
      show (if utf8Len (safeMapped name) ≤ 200 then safeMapped name
            else create_short_filename name (safeMapped name)) = safeMapped name
      rw [if_pos hle]
    refine ⟨?_, fun _ => he, fun hgt => absurd hle (by omega)⟩
    rw [he]
    omega
  · have he : encode_staticmcp_filename name =
        (safeMapped name).take 183 ++ '_' :: toHex16 (defaultHashStr name) := by
      show (if utf8Len (safeMapped name) ≤ 200 then safeMapped name
            else create_short_filename name (safeMapped name)) =
          (safeMapped name).take 183 ++ '_' :: toHex16 (defaultHashStr name)
      rw [if_neg hle]
      rfl
    refine ⟨?_, fun hc => absurd hc hle, fun _ =>
      ⟨(safeMapped name).take 183, toHex16 (defaultHashStr name), he,
        toHex16_length _, toHex16_hex _⟩⟩
    rw [he]
    simp only [List.length_append, List.length_cons, List.length_take, toHex16_length]
    omega

set_option maxRecDepth 10000 in
/-- Witness for C4 at a short and a long concrete title. -/
theorem C4_encoding_shape_witness :
    encode_staticmcp_filename "Hello World".toList = safeMapped "Hello World".toList ∧
    (∃ pre hx, encode_staticmcp_filename (List.replicate 201 'a') = pre ++ '_' :: hx ∧
      hx.length = 16 ∧ ∀ c ∈ hx, isLowerHexDigit c = true) :=
  ⟨(C4_encoding_shape _).2.1 (by decide), (C4_encoding_shape _).2.2 (by decide)⟩

set_option maxRecDepth 100000 in
/-- Counterexample to C3 as stated: two titles that differ only by a
space/slash substitution at one position, whose safe-mapped forms exceed
the 200-character bound, encode differently — the hash suffix is computed
over the original title, which differs. -/
theorem C3_counterexample :
    substRelated tLongSpace tLongSlash = true ∧
    encode_staticmcp_filename tLongSpace ≠ encode_staticmcp_filename tLongSlash := by
  constructor
  · decide
  · decide

theorem safeMapped_cons (c : Char) (t : List Char) :
    safeMapped (c :: t) = safeMapped [c] ++ safeMapped t := by
  simp [safeMapped, normalize_unicode, make_filename_safe, strLower]

theorem substCharOK_safeMapped (x y : Char) (h : substCharOK x y = true) :
    safeMapped [x] = safeMapped [y] := by
  simp only [substCharOK, Bool.or_eq_true, Bool.and_eq_true, beq_iff_eq] at h
  rcases h with rfl | ⟨hx, hy⟩
  · rfl
  · rcases hx with (rfl | rfl) | rfl <;> rcases hy with (rfl | rfl) | rfl <;> decide

theorem substRelated_safeMapped (a : List Char) :
    ∀ b, substRelated a b = true → safeMapped a = safeMapped b := by
  induction a with
  | nil =>
    intro b h
    simp only [substRelated, List.length_nil, Bool.and_eq_true, beq_iff_eq] at h
    obtain rfl : b = [] := (List.length_eq_zero.mp h.1.symm)
    rfl
  | cons x t ih =>
    intro b h
    cases b with
    | nil => simp [substRelated] at h
    | cons y u =>
      simp only [substRelated, List.length_cons, Bool.and_eq_true, beq_iff_eq,
        List.zip_cons_cons, List.all_cons] at h
      have hlen : t.length = u.length := by omega
      rw [safeMapped_cons x t, safeMapped_cons y u, substCharOK_safeMapped x y h.2.1,
        ih u (by simp [substRelated, Bool.and_eq_true, beq_iff_eq, hlen, h.2.2])]

/-- C3 amended: titles differing only by substituting space, slash or
underscore at the same positions encode identically whenever the
safe-mapped form is within the 200-byte bound (equivalently, takes the
non-hashed branch); beyond the bound the suffix hashes the original
title, which distinguishes such pairs (see the counterexample). -/
theorem C3_amended (a b : List Char) (hrel : substRelated a b = true)
    (hlen : utf8Len (safeMapped a) ≤ 200) :
    encode_staticmcp_filename a = encode_staticmcp_filename b := by
  have hmsn : safeMapped a = safeMapped b := substRelated_safeMapped a b hrel
  have ha : encode_staticmcp_filename a = safeMapped a := by
    show (if utf8Len (safeMapped a) ≤ 200 then safeMapped a
          else create_short_filename a (safeMapped a)) = safeMapped a
    rw [if_pos hlen]
  have hb : encode_staticmcp_filename b = safeMapped b := by
    show (if utf8Len (safeMapped b) ≤ 200 then safeMapped b
          else create_short_filename b (safeMapped b)) = safeMapped b
    rw [if_pos (by rw [← hmsn]; exact hlen)]
  rw [ha, hb, hmsn]

/-- Witness for the amended C3 at the repo's own collision example. -/
theorem C3_amended_witness :
    encode_staticmcp_filename "Test Article".toList =
      encode_staticmcp_filename "Test/Article".toList :=
  C3_amended _ _ (by decide) (by decide)

/-! ## The title gate (C5) -/

theorem strContains_iff (h n : List Char) : strContains h n = true ↔ n <:+: h := by
  simp only [strContains, List.any_eq_true]
  constructor
  · rintro ⟨t, ht, hp⟩
    exact List.infix_iff_prefix_suffix.mpr
      ⟨t, List.isPrefixOf_iff_prefix.mp hp, (List.mem_tails _ _).mp ht⟩
  · intro hinf
    obtain ⟨t, hp, hs⟩ := List.infix_iff_prefix_suffix.mp hinf
    exact ⟨t, (List.mem_tails _ _).mpr hs, List.isPrefixOf_iff_prefix.mpr hp⟩

/-- C5: the title-only gate accepts a title exactly when the title is
non-empty, starts with none of the ten fixed namespace prefixes (this
rejection is total, independent of any filter), and — when a filter is
active — some filter keyword occurs case-insensitively (i.e. after
lowercasing both sides) as a substring of the title; with no active
filter every non-empty non-prefixed title is accepted.  The hypothesis
records that keyword tables are stored lowercase, which the spec's
case-insensitive contract presupposes (the code lowercases only the
title). -/
theorem C5_title_gate (title : List Char) (tf : Option TopicFilter)
    (hkw : ∀ f, tf = some f → ∀ kw ∈ f.keywords, strLower kw = kw) :
    should_include_by_title title tf = true ↔
      (title ≠ [] ∧ (∀ p ∈ excludedPrefixes, ¬ p <+: title) ∧
        ∀ f, tf = some f → ∃ kw ∈ f.keywords, strLower kw <:+: strLower title) := by
  unfold should_include_by_title
  split
  · rename_i he
    have : title = [] := by
      cases title
      · rfl
      · simp at he
    simp [this]
  · rename_i he
    have hne : title ≠ [] := by
      intro hh
      subst hh
      simp at he
    split
    · rename_i hp
      simp only [List.any_eq_true] at hp
      obtain ⟨p, hpmem, hpp⟩ := hp
      constructor
      · intro h
        cases h
      · rintro ⟨-, hnp, -⟩
        exact absurd (List.isPrefixOf_iff_prefix.mp hpp) (hnp p hpmem)
    · rename_i hp
      have hnp : ∀ p ∈ excludedPrefixes, ¬ p <+: title := by
        intro p hm hpre
        exact hp (List.any_eq_true.mpr ⟨p, hm, List.isPrefixOf_iff_prefix.mpr hpre⟩)
      cases tf with
      | none =>
        constructor
        · intro _
          exact ⟨hne, hnp, fun f hf => by cases hf⟩
        · intro _
          rfl
      | some f =>
        simp only [List.any_eq_true]
        constructor
        · rintro ⟨kw, hkm, hc⟩
          refine ⟨hne, hnp, ?_⟩
          intro g hg
          injection hg with hg
          subst hg
          exact ⟨kw, hkm, by
            rw [hkw f rfl kw hkm]
            exact (strContains_iff _ _).mp hc⟩
        · rintro ⟨-, -, hex⟩
          obtain ⟨kw, hkm, hinf⟩ := hex f rfl
          rw [hkw f rfl kw hkm] at hinf
          exact ⟨kw, hkm, (strContains_iff _ _).mpr hinf⟩

/-- Witness for C5: an accepted title under an active one-keyword filter,
obtained by applying the gate characterization in both directions. -/
theorem C5_title_gate_witness :
    should_include_by_title "World War II".toList (some warFilter) = true ∧
    should_include_by_title "File:Example.jpg".toList (some warFilter) = false :=
  ⟨(C5_title_gate "World War II".toList (some warFilter)
      (by intro f hf kw hkw; cases hf; revert kw hkw; decide)).mpr
    ⟨by decide, by decide, fun f hf => by
      cases hf
      exact ⟨"war".toList, by decide, by decide⟩⟩,
   by decide⟩

/-! ## The wikitext normalizer (C7) -/

theorem replaceAllF_no_match (p : RPat) (s : List Char) (h : hasMatch p s = false) :
    ∀ fuel, s.length ≤ fuel → replaceAllF p fuel s = s := by
  induction s with
  | nil =>
    intro fuel _
    cases fuel <;> rfl
  | cons c rest ih =>
    intro fuel hf
    cases fuel with
    | zero => simp at hf
    | succ f =>
      simp only [hasMatch, Bool.or_eq_false_iff] at h
      have hnone : patMatch p (c :: rest) = none := by
        rcases hm : patMatch p (c :: rest) with _ | v
        · rfl
        · rw [hm] at h
          simp at h
      simp only [replaceAllF, hnone]
      rw [ih h.2 f (by simpa using hf)]

theorem replace_all_no_match (p : RPat) (s : List Char) (h : hasMatch p s = false) :
    replace_all p s = s :=
  replaceAllF_no_match p s h s.length le_rfl

theorem foldl_no_match (ps : List RPat) (s : List Char)
    (h : ∀ p ∈ ps, hasMatch p s = false) :
    ps.foldl (fun acc p => replace_all p acc) s = s := by
  induction ps with
  | nil => rfl
  | cons p t ih =>
    rw [List.foldl_cons, replace_all_no_match p s (h p (by simp))]
    exact ih (fun q hq => h q (by simp [hq]))

/-- Counterexample to C7 as stated: the normalizer is not idempotent on
all inputs.  On `inputC7` the tag-stripping pass creates a fresh template
invocation out of previously separated braces, which only a second run
removes. -/
theorem C7_counterexample :
    clean_wikitext (clean_wikitext inputC7) ≠ clean_wikitext inputC7 := by decide

/-- C7 amended: the wikitext normalizer returns already-clean plain text
unchanged — and hence is idempotent there: for every string in which none
of the eleven recognized markup patterns matches and whose lines are
trimmed and non-empty (equivalently, the string is the newline-join of
its own lines), `clean_wikitext` is the identity.  On arbitrary inputs
idempotence fails (see the counterexample). -/
theorem C7_amended (s : List Char)
    (hm : wikiPatterns.all (fun p => !hasMatch p s) = true)
    (hl : ((linesOf s).all (fun l => !l.isEmpty && trimChars l == l) &&
           (joinLines (linesOf s) == s)) = true) :
    clean_wikitext s = s := by
  simp only [List.all_eq_true, Bool.not_eq_true', Bool.and_eq_true, beq_iff_eq] at hm hl
  unfold clean_wikitext
  rw [foldl_no_match _ _ hm]
  have hmap : (linesOf s).map trimChars = linesOf s := by
    rw [List.map_congr_left (fun l hl2 => (hl.1 l hl2).2)]
    simp
  have hfil : (linesOf s).filter (fun l => !l.isEmpty) = linesOf s :=
    List.filter_eq_self.mpr (fun l hl2 => by simp [(hl.1 l hl2).1])
  show joinLines (((linesOf s).map trimChars).filter (fun l => !l.isEmpty)) = s
  rw [hmap, hfil, hl.2]

/-- Witness for the amended C7 on a concrete clean two-line text. -/
theorem C7_amended_witness :
    clean_wikitext "Hello world.\nSecond line.".toList =
      "Hello world.\nSecond line.".toList :=
  C7_amended _ (by decide) (by decide)

/-! ## The collision-resolving writer (C1, C2) -/

theorem lookupA_insertA_self {α : Type} (k : List Char) (v : α) (l : List (List Char × α)) :
    lookupA k (insertA k v l) = some v := by
  induction l with
  | nil => simp [insertA, lookupA]
  | cons p rest ih =>
    obtain ⟨k0, v0⟩ := p
    by_cases hk : k0 = k
    · simp [insertA, lookupA, hk]
    · simp [insertA, lookupA, hk, ih]

theorem lookupA_insertA_ne {α : Type} (k k2 : List Char) (hne : k2 ≠ k) (v : α)
    (l : List (List Char × α)) : lookupA k (insertA k2 v l) = lookupA k l := by
  induction l with
  | nil => simp [insertA, lookupA, hne]
  | cons p rest ih =>
    obtain ⟨k0, v0⟩ := p
    by_cases hk : k0 = k2
    · subst hk
      simp [insertA, lookupA, hne]
    · simp [insertA, lookupA, hk, ih]

set_option maxRecDepth 100000 in
/-- Evaluation of the writer at C1's failing input: after two long
colliding writes (titles `a b` and `a_b`, bodies of 1001 bytes), the
store holds exactly the rewritten base index and nothing else — no
numbered sibling artifact exists and neither article's content is
retrievable from any artifact, contradicting the claimed preservation
(and the repo's own collision tests). -/
theorem C1_content_lost :
    storeC1 = [("a_b".toList, idxC1)] ∧
    ¬ (∃ f body, lookupA f storeC1 = some body ∧ longX <:+: body) ∧
    ¬ (∃ f body, lookupA f storeC1 = some body ∧ longY <:+: body) := by
  have hs : storeC1 = [("a_b".toList, idxC1)] := by decide
  have hlen : idxC1.length < 1001 := by decide
  refine ⟨hs, ?_, ?_⟩
  · rintro ⟨f, body, hl, hinf⟩
    rw [hs] at hl
    simp only [lookupA] at hl
    split at hl
    · have hb : body = idxC1 := by
        injection hl with hl
        exact hl.symm
      subst hb
      have := hinf.length_le
      rw [show longX.length = 1001 by simp [longX]] at this
      omega
    · cases hl
  · rintro ⟨f, body, hl, hinf⟩
    rw [hs] at hl
    simp only [lookupA] at hl
    split at hl
    · have hb : body = idxC1 := by
        injection hl with hl
        exact hl.symm
      subst hb
      have := hinf.length_le
      rw [show longY.length = 1001 by simp [longY]] at this
      omega
    · cases hl

set_option maxRecDepth 100000 in
/-- Counterexample to C2 as stated: two short colliding titles (`a b`,
`a/b`) are merged into one combined short-form document; a third long
colliding write (`a_b`) escalates the base artifact to a disambiguation
index, but the index recovers only the heading title `a b` — the
previously merged title `a/b` is not listed anywhere in it. -/
theorem C2_counterexample :
    lookupA "a_b".toList storeC2 = some idxC2 ∧
    multiplePrefix.isPrefixOf idxC2 = true ∧
    encode_staticmcp_filename "a/b".toList = "a_b".toList ∧
    strContains idxC2 ("a/b".toList) = false := by
  refine ⟨by decide, by decide, by decide, by decide⟩

/-- C2 amended: once the base artifact for a filename is a disambiguation
index, every later collision-handled write leaves it an index and only
appends: the old index text is a prefix of the new one, and the title of
every subsequent write that collides with this filename appears in the
index.  Titles that had been merged into a combined short-form document
before the escalation are not carried over (only the heading title is) —
see the counterexample. -/
theorem C2_amended (writes : List (List Char × List Char)) :
    ∀ (store : Store) (k v : List Char),
      lookupA k store = some v → multiplePrefix.isPrefixOf v = true →
      ∃ w, lookupA k (applyWrites store writes) = some w ∧ v <+: w ∧
        multiplePrefix.isPrefixOf w = true ∧
        ∀ tc ∈ writes, encode_staticmcp_filename tc.1 = k → strContains w tc.1 = true := by
  induction writes with
  | nil =>
    intro store k v hv hp
    exact ⟨v, hv, List.prefix_rfl, hp, by simp⟩
  | cons tc rest ih =>
    intro store k v hv hp
    obtain ⟨t, c⟩ := tc
    by_cases hk : encode_staticmcp_filename t = k
    · have hw : write_article_with_collision_handling store t c =
          insertA k (v ++ disambigEntry t) store := by
        unfold write_article_with_collision_handling
        rw [hk, hv]
        show insertA k (merge_with_existing_content v t c) store =
          insertA k (v ++ disambigEntry t) store
        unfold merge_with_existing_content
        rw [if_pos hp]
      have hpv : multiplePrefix <+: v := List.isPrefixOf_iff_prefix.mp hp
      have hp1 : multiplePrefix.isPrefixOf (v ++ disambigEntry t) = true :=
        List.isPrefixOf_iff_prefix.mpr (hpv.trans (List.prefix_append v _))
      obtain ⟨w, hlw, hpre, hpw, hall⟩ :=
        ih (insertA k (v ++ disambigEntry t) store) k (v ++ disambigEntry t)
          (lookupA_insertA_self k _ store) hp1
      refine ⟨w, ?_, (List.prefix_append v _).trans hpre, hpw, ?_⟩
      · show lookupA k (applyWrites (write_article_with_collision_handling store t c) rest) = some w
        rw [hw]
        exact hlw
      · intro tc2 hm hk2
        rcases List.mem_cons.mp hm with rfl | hm2
        · have htv1 : t <:+: v ++ disambigEntry t := by
            refine ⟨v ++ (bulletC :: " **".toList),
              "** - Use get_article tool with title ".toList ++ aposC :: t ++ [aposC, '\n'], ?_⟩
            simp [disambigEntry]
          exact (strContains_iff w t).mpr (htv1.trans hpre.isInfix)
        · exact hall tc2 hm2 hk2
    · have hw : lookupA k (write_article_with_collision_handling store t c) = some v := by
        unfold write_article_with_collision_handling
        rcases hcase : lookupA (encode_staticmcp_filename t) store with _ | ex
        · show lookupA k (insertA (encode_staticmcp_filename t) (freshBody t c) store) = some v
          rw [lookupA_insertA_ne _ _ hk]
          exact hv
        · show lookupA k (insertA (encode_staticmcp_filename t)
            (merge_with_existing_content ex t c) store) = some v
          rw [lookupA_insertA_ne _ _ hk]
          exact hv
      obtain ⟨w, hlw, hpre, hpw, hall⟩ :=
        ih (write_article_with_collision_handling store t c) k v hw hp
      refine ⟨w, hlw, hpre, hpw, ?_⟩
      intro tc2 hm hk2
      rcases List.mem_cons.mp hm with rfl | hm2
      · exact absurd hk2 hk
      · exact hall tc2 hm2 hk2

/-- Witness for the amended C2: a store whose base artifact is already an
index, extended by one colliding write (`K` encodes to `k`). -/
theorem C2_amended_witness :
    ∃ w, lookupA "k".toList
        (applyWrites [("k".toList, multiplePrefix)] [("K".toList, "c".toList)]) = some w ∧
      multiplePrefix <+: w ∧ multiplePrefix.isPrefixOf w = true ∧
      ∀ tc ∈ [("K".toList, "c".toList)],
        encode_staticmcp_filename tc.1 = "k".toList → strContains w tc.1 = true :=
  C2_amended [("K".toList, "c".toList)] [("k".toList, multiplePrefix)] "k".toList
    multiplePrefix (by decide) (by decide)

/-! ## Step lemmas for the parse loop -/

theorem insertA_length {α : Type} (k : List Char) (v : α) (l : List (List Char × α)) :
    (insertA k v l).length ≤ l.length + 1 := by
  induction l with
  | nil => simp [insertA]
  | cons p rest ih =>
    obtain ⟨k0, v0⟩ := p
    by_cases hk : k0 = k
    · simp [insertA, hk]
    · simp only [insertA, if_neg hk, List.length_cons]
      omega

theorem step_start_page (tf : Option TopicFilter) (m : Option Nat) (st : PState) :
    parseStep tf m st (.startE ['p', 'a', 'g', 'e']) =
      ({ st with content := [], current := some ⟨[], [], 0, none⟩, skip := false }, false) := by
  simp [parseStep]

theorem step_start_nonpage (tf : Option TopicFilter) (m : Option Nat) (st : PState)
    (tag : List Char) (h : ¬ tag = "page".toList) :
    parseStep tf m st (.startE tag) = ({ st with content := [] }, false) := by
  simp only [parseStep]
  rw [if_neg (fun hh => h (by simpa using hh))]

theorem step_textE (tf : Option TopicFilter) (m : Option Nat) (st : PState) (s : List Char) :
    parseStep tf m st (.textE s) = ({ st with content := st.content ++ s }, false) := rfl

theorem step_end_nocurrent (tf : Option TopicFilter) (m : Option Nat) (st : PState)
    (tag : List Char) (h : st.current = none) :
    parseStep tf m st (.endE tag) = ({ st with content := [] }, false) := by
  simp only [parseStep, h]

theorem step_end_title (tf : Option TopicFilter) (m : Option Nat) (st : PState) (a : Article)
    (h : st.current = some a) :
    parseStep tf m st (.endE ['t', 'i', 't', 'l', 'e']) =
      ({ st with
          current := some { a with title := st.content },
          content := [],
          skip := if should_include_by_title st.content tf then st.skip else true }, false) := by
  simp [parseStep, h]

theorem step_end_id (tf : Option TopicFilter) (m : Option Nat) (st : PState) (a : Article)
    (h : st.current = some a) :
    parseStep tf m st (.endE ['i', 'd']) =
      ({ st with
          current := some (if a.id = 0 then { a with id := parseU64OrZero st.content } else a),
          content := [] }, false) := by
  simp [parseStep, h]

theorem step_end_text (tf : Option TopicFilter) (m : Option Nat) (st : PState) (a : Article)
    (h : st.current = some a) :
    parseStep tf m st (.endE ['t', 'e', 'x', 't']) =
      ({ st with
          current := some (if st.skip then a else { a with content := clean_wikitext st.content }),
          content := [] }, false) := by
  simp [parseStep, h]

theorem step_end_redirect (tf : Option TopicFilter) (m : Option Nat) (st : PState) (a : Article)
    (h : st.current = some a) :
    parseStep tf m st (.endE ['r', 'e', 'd', 'i', 'r', 'e', 'c', 't']) =
      ({ st with
          current := some { a with redirect := some st.content },
          content := [] }, false) := by
  simp [parseStep, h]

theorem step_end_page_reject (tf : Option TopicFilter) (m : Option Nat) (st : PState)
    (a : Article) (h : st.current = some a)
    (hacc : (!st.skip && should_include_by_content a tf) = false) :
    parseStep tf m st (.endE ['p', 'a', 'g', 'e']) =
      ({ st with current := none, skip := false, content := [] }, false) := by
  simp [parseStep, h, hacc]

theorem step_end_page_accept_red (tf : Option TopicFilter) (st : PState) (a : Article)
    (target : List Char) (h : st.current = some a)
    (hacc : (!st.skip && should_include_by_content a tf) = true)
    (hred : a.redirect = some target) :
    parseStep tf none st (.endE ['p', 'a', 'g', 'e']) =
      ({ st with
          redirects := insertA a.title target st.redirects,
          current := none,
          processed := st.processed + 1,
          skip := false,
          content := [] }, false) := by
  simp [parseStep, h, hred, hacc]

theorem step_end_page_accept_art (tf : Option TopicFilter) (st : PState) (a : Article)
    (h : st.current = some a)
    (hacc : (!st.skip && should_include_by_content a tf) = true)
    (hred : a.redirect = none) :
    parseStep tf none st (.endE ['p', 'a', 'g', 'e']) =
      ({ st with
          articles := insertA a.title a st.articles,
          current := none,
          processed := st.processed + 1,
          skip := false,
          content := [] }, false) := by
  simp [parseStep, h, hred, hacc]

/-- C8: in the parse loop (no article cap) a complete redirect page is
recorded in the redirect store if and only if it is not suppressed by the
title gate and the content-level filter accepts its title and captured
(cleaned) content; a redirect page rejected by the filter is silently
dropped, and in every case the article store is untouched. -/
theorem C8_redirect_content_gate (tf : Option TopicFilter) (title rtext body : List Char)
    (st0 : PState) :
    ((parseRun tf none st0 (redirectPageEvents title rtext body)).redirects =
      (if should_include_by_title title tf &&
          should_include_by_content ⟨title, clean_wikitext body, 0, some rtext⟩ tf
        then insertA title rtext st0.redirects
        else st0.redirects)) ∧
    (parseRun tf none st0 (redirectPageEvents title rtext body)).articles = st0.articles := by
  by_cases hg : should_include_by_title title tf
  · by_cases hc : should_include_by_content ⟨title, clean_wikitext body, 0, some rtext⟩ tf
    · rw [if_pos (by simp [hg, hc])]
      refine ⟨?_, ?_⟩ <;>
        simp [redirectPageEvents, parseRun, step_start_page, step_start_nonpage, step_textE,
          step_end_title, step_end_id, step_end_text, step_end_redirect,
          step_end_page_accept_red, hg, hc]
    · rw [Bool.not_eq_true] at hc
      rw [if_neg (by simp [hc])]
      refine ⟨?_, ?_⟩ <;>
        simp [redirectPageEvents, parseRun, step_start_page, step_start_nonpage, step_textE,
          step_end_title, step_end_id, step_end_text, step_end_redirect,
          step_end_page_reject, hg, hc]
  · rw [Bool.not_eq_true] at hg
    rw [if_neg (by simp [hg])]
    refine ⟨?_, ?_⟩ <;>
      simp [redirectPageEvents, parseRun, step_start_page, step_start_nonpage, step_textE,
        step_end_title, step_end_id, step_end_text, step_end_redirect,
        step_end_page_reject, hg]

theorem parseStep_no_break (tf : Option TopicFilter) (st : PState) (e : XmlEvent) :
    (parseStep tf none st e).2 = false := by
  cases e with
  | startE tag =>
    simp only [parseStep]
    split <;> rfl
  | textE s => rfl
  | endE tag =>
    cases hc : st.current with
    | none => rw [step_end_nocurrent tf none st tag hc]
    | some a =>
      simp only [parseStep, hc]
      repeat' split
      all_goals rfl

theorem parseRun_append (tf : Option TopicFilter) (st : PState) (l1 l2 : List XmlEvent) :
    parseRun tf none st (l1 ++ l2) = parseRun tf none (parseRun tf none st l1) l2 := by
  induction l1 generalizing st with
  | nil => rfl
  | cons e rest ih =>
    have hb := parseStep_no_break tf st e
    rcases hs : parseStep tf none st e with ⟨st1, brk⟩
    rw [hs] at hb
    subst hb
    simp only [List.cons_append, parseRun, hs]
    exact ih st1

set_option maxRecDepth 10000 in
/-- Counterexample to C6 as stated: in a page whose first `id` element
reads `0` (numeric value zero) and whose second reads `7`, the recorded id
is `7`, not the first element's value — zero acts as "unset", so a first
id parsing to zero (or failing to parse) is overwritten by a later one. -/
theorem C6_counterexample :
    ((lookupA "T".toList (parseRun none none initPState eventsC6).articles).map
      (fun a => a.id)) = some 7 ∧
    parseU64OrZero "0".toList = 0 := by
  constructor
  · decide
  · decide

theorem parseRun_idElems (ids : List (List Char)) :
    ∀ (st : PState) (a : Article), st.current = some a → st.content = [] →
      parseRun none none st (ids.flatMap idElemEvents) =
        { st with current := some { a with
            id := (if a.id = 0 then firstNonzeroId ids else a.id) } } := by
  induction ids with
  | nil =>
    intro st a hcur _
    have ha : ({ a with id := if a.id = 0 then firstNonzeroId [] else a.id } : Article) = a := by
      obtain ⟨t0, c0, i0, r0⟩ := a
      by_cases hi : i0 = 0 <;> simp [firstNonzeroId, hi]
    simp only [List.flatMap_nil, parseRun, ha, ← hcur]
  | cons v rest ih =>
    intro st a hcur hcont
    rw [List.flatMap_cons, parseRun_append]
    have h3 : parseRun none none st (idElemEvents v) =
        { st with
            current := some (if a.id = 0 then { a with id := parseU64OrZero v } else a),
            content := [] } := by
      simp [idElemEvents, parseRun, step_start_nonpage, step_textE, step_end_id, hcur]
    rw [h3, ih _ _ rfl rfl]
    by_cases hai : a.id = 0
    · by_cases hv : parseU64OrZero v = 0
      · simp [hai, hv, firstNonzeroId, List.find?, hcont]
      · have hb : (parseU64OrZero v != 0) = true := by simpa using hv
        simp [hai, hv, hb, firstNonzeroId, List.find?, hcont]
    · simp [hai, hcont]

/-- C6 amended: for a page with title, a sequence of `id` elements and a
body, the recorded id is the value of the first `id` element that parses
to a nonzero number (zero denotes "unset", so elements parsing to zero —
including unparseable ones, which default to zero without aborting — do
not block a later assignment); if no element parses nonzero the id stays
zero, and parsing always completes. -/
theorem C6_amended (title body : List Char) (ids : List (List Char))
    (hg : should_include_by_title title none = true) :
    lookupA title (parseRun none none initPState (pageEvents title ids body)).articles =
      some ⟨title, clean_wikitext body, firstNonzeroId ids, none⟩ := by
  have hsplit : pageEvents title ids body =
      ([.startE "page".toList, .startE "title".toList, .textE title,
        .endE "title".toList] : List XmlEvent) ++
      (ids.flatMap idElemEvents ++
        [.startE "text".toList, .textE body, .endE "text".toList, .endE "page".toList]) := by
    simp [pageEvents]
  rw [hsplit, parseRun_append, parseRun_append]
  have hA : parseRun none none initPState
      [.startE "page".toList, .startE "title".toList, .textE title, .endE "title".toList] =
      (⟨[], [], some ⟨title, [], 0, none⟩, [], 0, false⟩ : PState) := by
    simp [initPState, parseRun, step_start_page, step_start_nonpage, step_textE,
      step_end_title, hg]
  rw [hA, parseRun_idElems ids _ ⟨title, [], 0, none⟩ rfl rfl]
  simp [parseRun, step_start_nonpage, step_textE, step_end_text, step_end_page_accept_art,
    should_include_by_content, lookupA, insertA]

/-- Witness for the amended C6: ids `0` then `7` record id 7. -/
theorem C6_amended_witness :
    lookupA "T".toList (parseRun none none initPState
      (pageEvents "T".toList ["0".toList, "7".toList] "b".toList)).articles =
      some ⟨"T".toList, clean_wikitext "b".toList,
        firstNonzeroId ["0".toList, "7".toList], none⟩ :=
  C6_amended _ _ _ (by decide)

theorem parseStep_effect (tf : Option TopicFilter) (n : Nat) (st : PState) (e : XmlEvent)
    (st1 : PState) (brk : Bool) (hs : parseStep tf (some n) st e = (st1, brk)) :
    (st1.articles = st.articles ∧ st1.redirects = st.redirects ∧
      st1.processed = st.processed ∧ brk = false) ∨
    (st1.articles.length + st1.redirects.length ≤
        st.articles.length + st.redirects.length + 1 ∧
      st1.processed = st.processed + 1 ∧ (brk = false → st1.processed < n)) := by
  cases e with
  | startE tag =>
    simp only [parseStep] at hs
    split at hs <;> (cases hs; left; exact ⟨rfl, rfl, rfl, rfl⟩)
  | textE s =>
    simp only [parseStep] at hs
    cases hs
    left
    exact ⟨rfl, rfl, rfl, rfl⟩
  | endE tag =>
    cases hc : st.current with
    | none =>
      simp only [parseStep, hc] at hs
      cases hs
      left
      exact ⟨rfl, rfl, rfl, rfl⟩
    | some a =>
      simp only [parseStep, hc] at hs
      repeat' split at hs
      all_goals cases hs
      all_goals try (left; exact ⟨rfl, rfl, rfl, rfl⟩)
      all_goals (right; refine ⟨?_, rfl, ?_⟩)
      all_goals simp_all
      all_goals try (have hI := insertA_length a.title a st.articles; omega)
      all_goals (rename List Char => target; have hI := insertA_length a.title target st.redirects; omega)

theorem parseRun_cons_nb (tf : Option TopicFilter) (m : Option Nat) (st : PState)
    (e : XmlEvent) (st1 : PState) (rest : List XmlEvent)
    (hs : parseStep tf m st e = (st1, false)) :
    parseRun tf m st (e :: rest) = parseRun tf m st1 rest := by
  simp [parseRun, hs]

theorem parseRun_cons_brk (tf : Option TopicFilter) (m : Option Nat) (st : PState)
    (e : XmlEvent) (st1 : PState) (rest : List XmlEvent)
    (hs : parseStep tf m st e = (st1, true)) :
    parseRun tf m st (e :: rest) = st1 := by
  simp [parseRun, hs]

theorem parseRun_cap_invariant (tf : Option TopicFilter) (n : Nat) (evs : List XmlEvent) :
    ∀ st : PState,
      st.articles.length + st.redirects.length ≤ st.processed → st.processed < n →
      ((parseRun tf (some n) st evs).articles.length +
        (parseRun tf (some n) st evs).redirects.length ≤
          (parseRun tf (some n) st evs).processed) ∧
      (parseRun tf (some n) st evs).processed ≤ n := by
  induction evs with
  | nil =>
    intro st h1 h2
    simp only [parseRun]
    exact ⟨h1, by omega⟩
  | cons e rest ih =>
    intro st h1 h2
    rcases hs : parseStep tf (some n) st e with ⟨st1, brk⟩
    rcases parseStep_effect tf n st e st1 brk hs with ⟨ha, hr, hp, hb⟩ | ⟨hlen, hp, hb⟩
    · subst hb
      rw [parseRun_cons_nb tf (some n) st e st1 rest hs]
      exact ih st1 (by rw [ha, hr, hp]; exact h1) (by rw [hp]; exact h2)
    · cases brk with
      | true =>
        rw [parseRun_cons_brk tf (some n) st e st1 rest hs]
        exact ⟨by omega, by omega⟩
      | false =>
        rw [parseRun_cons_nb tf (some n) st e st1 rest hs]
        exact ih st1 (by omega) (hb rfl)

set_option maxRecDepth 10000 in
/-- Counterexample to C9 as stated: with `max_articles = Some 0` the cap
check runs only after a page has been accepted and counted, so one
accepted page is recorded and `articles.len() + redirects.len() = 1 > 0`;
the scan does not halt "as soon as the counter reaches" zero. -/
theorem C9_counterexample :
    (parseRun none (some 0) initPState eventsC9).articles.length +
      (parseRun none (some 0) initPState eventsC9).redirects.length = 1 := by
  decide

/-- C9 amended: for every event stream, active filter and cap `n ≥ 1`,
starting from empty stores, every accepted page (article or redirect)
increments the processed counter, the scan halts between completed pages
once the counter reaches `n`, and afterwards the processed counter is at
most `n` and `articles.len() + redirects.len()` is at most the counter
(hence at most `n`).  For `n = 0` the code still records one page (see
the counterexample). -/
theorem C9_amended (tf : Option TopicFilter) (evs : List XmlEvent) (n : Nat) (hn : 1 ≤ n) :
    ((parseRun tf (some n) initPState evs).articles.length +
      (parseRun tf (some n) initPState evs).redirects.length ≤
        (parseRun tf (some n) initPState evs).processed) ∧
    (parseRun tf (some n) initPState evs).processed ≤ n :=
  parseRun_cap_invariant tf n evs initPState (by simp [initPState]) (by simp [initPState]; omega)

/-- Witness for the amended C9 at one accepted page and a cap of one. -/
theorem C9_amended_witness :
    ((parseRun none (some 1) initPState eventsC9).articles.length +
      (parseRun none (some 1) initPState eventsC9).redirects.length ≤
        (parseRun none (some 1) initPState eventsC9).processed) ∧
    (parseRun none (some 1) initPState eventsC9).processed ≤ 1 :=
  C9_amended none eventsC9 1 (by decide)
